import Mathlib

/-!
Shallow embedding of the hook-graph editor core of the repository: the
`Tree` traversals (`ancestry` / `descent`), the `onConnect` and
`onNodesDelete` handlers, the hook-resolution effect, and the
`JSON.stringify`-based change detector of `CollectionHooks`, together with
the parts of the `reactflow` library the source calls (`addEdge`,
`getIncomers`, `getOutgoers`, `getConnectedEdges`).

Conventions of the embedding:
* JavaScript `null` and `undefined` on optional edge/connection fields are
  both modelled as `Option.none`.  Where the source coerces such a field
  into a template string, `none` is rendered as `"undefined"` on edge
  fields (synthesized edges simply lack the property) and as `"null"` on
  connection fields (ReactFlow hands `null` for absent handles), matching
  the JavaScript string coercion at the call sites that occur.
* Thrown exceptions are modelled with `Except String`.  The generator
  traversals are run eagerly with a fuel argument (`edges.length + 1`);
  it is proved below that this fuel is never exhausted.
* JavaScript object-literal maps keyed by method name are modelled as
  association lists in insertion order (`METHODS` order), which also
  captures the key order `JSON.stringify` observes.
-/

namespace HookGraph

structure Edge where
  id : String
  source : String
  sourceHandle : Option String
  target : String
  targetHandle : Option String
deriving DecidableEq, Repr

structure Node where
  id : String
  dataId : Option String
  type : String
deriving DecidableEq, Repr

/-- A hook entry pushed by the resolver: the source pushes `[node?.data.id]`,
a one-element tuple around the (possibly undefined) hook-type id; the
embedding keeps just that id. -/
abbrev Hook := Option String

structure HooksConfig where
  before : List (String × List Hook)
  after : List (String × List Hook)
deriving DecidableEq, Repr

def SERVICE_NODE_TYPE : String := "service"

def HOOK_NODE_TYPE : String := "hook"

def initialNodes : List Node :=
  [{ id := "service", dataId := none, type := SERVICE_NODE_TYPE }]

/-- JavaScript `${x ?? ''}`-style coercion used by reactflow `getEdgeId`
(`sourceHandle || ''`). -/
def handleStr : Option String → String
  | none => ""
  | some s => s

/-- Template-string coercion of a possibly absent (undefined) edge field. -/
def templateStr : Option String → String
  | none => "undefined"
  | some s => s

/-- Template-string coercion of a possibly `null` connection field. -/
def templateStrN : Option String → String
  | none => "null"
  | some s => s

structure Connection where
  source : Option String
  sourceHandle : Option String
  target : Option String
  targetHandle : Option String
deriving DecidableEq, Repr

/-- The edge object reactflow's `addEdge` builds from connection `c` with
non-null source `s` and target `t` (id from `getEdgeId`). -/
def connEdge (c : Connection) (s t : String) : Edge :=
  { id := "reactflow__edge-" ++ s ++ handleStr c.sourceHandle ++ "-" ++ t
      ++ handleStr c.targetHandle
    source := s
    sourceHandle := c.sourceHandle
    target := t
    targetHandle := c.targetHandle }

/-- reactflow `connectionExists`: a duplicate connection already present. -/
def connectionExists (e : Edge) (edges : List Edge) : Bool :=
  edges.any fun el =>
    decide (el.source = e.source) && decide (el.target = e.target) &&
    decide (el.sourceHandle = e.sourceHandle) && decide (el.targetHandle = e.targetHandle)

/-- reactflow `addEdge`: ignore connections with a null endpoint, skip
duplicates, otherwise append the new edge. -/
def addEdge (c : Connection) (edges : List Edge) : List Edge :=
  match c.source, c.target with
  | some s, some t =>
    let e := connEdge c s t
    if connectionExists e edges then edges else edges ++ [e]
  | _, _ => edges

/-- `` `${edge.target}-${edge.targetHandle}` `` of the source's `onConnect`. -/
def edgeTargetTag (e : Edge) : String :=
  e.target ++ "-" ++ templateStr e.targetHandle

/-- `` `${connection.target}-${connection.targetHandle}` `` of `onConnect`. -/
def connTargetTag (c : Connection) : String :=
  templateStrN c.target ++ "-" ++ templateStrN c.targetHandle

/-- The source's `onConnect` handler: filter conflicting edges (keyed on the
source handle when the connection comes out of the service node, and on the
target/target-handle pair otherwise), then `addEdge`. -/
def onConnect (connection : Connection) (edges : List Edge) : List Edge :=
  let filtered := edges.filter fun edge =>
    if connection.source = some "service" then
      decide (edge.sourceHandle ≠ connection.sourceHandle)
    else
      decide (edgeTargetTag edge ≠ connTargetTag connection)
  addEdge connection filtered

/-- reactflow `getIncomers`. -/
def getIncomers (node : Node) (nodes : List Node) (edges : List Edge) : List Node :=
  let incomersIds := (edges.filter fun e => decide (e.target = node.id)).map Edge.source
  nodes.filter fun n => incomersIds.contains n.id

/-- reactflow `getOutgoers`. -/
def getOutgoers (node : Node) (nodes : List Node) (edges : List Edge) : List Node :=
  let outgoerIds := (edges.filter fun e => decide (e.source = node.id)).map Edge.target
  nodes.filter fun n => outgoerIds.contains n.id

/-- reactflow `getConnectedEdges`. -/
def getConnectedEdges (ns : List Node) (edges : List Edge) : List Edge :=
  let ids := ns.map Node.id
  edges.filter fun e => ids.contains e.source || ids.contains e.target

/-- The source's `onNodesDelete` handler (the edge-rewiring reduce); the
per-node incomers/outgoers/connected edges are computed from the pre-delete
`nodes`/`edges` state, exactly as the closure in the source does. -/
def onNodesDelete (deleted : List Node) (nodes : List Node) (edges : List Edge) :
    List Edge :=
  deleted.foldl
    (fun acc node =>
      let incomers := getIncomers node nodes edges
      let outgoers := getOutgoers node nodes edges
      let connectedEdges := getConnectedEdges [node] edges
      let remainingEdges := acc.filter fun edge => !(connectedEdges.contains edge)
      let createdEdges := incomers.flatMap fun inc =>
        outgoers.map fun out =>
          ({ id := inc.id ++ "->" ++ out.id, source := inc.id, sourceHandle := none,
             target := out.id, targetHandle := none } : Edge)
      remainingEdges ++ createdEdges)
    edges

/-- Node deletion as the editor performs it: ReactFlow removes the deleted
nodes themselves, and the repository's `onNodesDelete` callback rewires the
edges.  No guard exists for the service node. -/
def deleteNodes (deleted : List Node) (nodes : List Node) (edges : List Edge) :
    List Node × List Edge :=
  (nodes.filter fun n => !(deleted.contains n), onNodesDelete deleted nodes edges)

structure Tree where
  edges : List Edge
  nodes : List Node

/-- `Tree.ancestor`, as a query on the source id of the current connection:
the source's `ancestor(connection)` is `ancestorQ connection.source`. -/
def Tree.ancestorQ (t : Tree) (sourceId : String) : Option Edge :=
  t.edges.find? fun edge =>
    decide (edge.source ≠ "service") && decide (edge.target = sourceId)

/-- `Tree.descendant`, as a query on the target id of the current connection. -/
def Tree.descendantQ (t : Tree) (targetId : String) : Option Edge :=
  t.edges.find? fun edge =>
    decide (edge.target ≠ "service") && decide (edge.source = targetId)

/-- The generator loop shared by `Tree.ancestry` and `Tree.descent`:
check the visited set, record `(node, edge)`, follow the successor query
`F` applied to the endpoint (`source` backwards, `target` forwards). -/
def walkAux (F : String → Option Edge) (endp : Edge → String) (nodes : List Node) :
    Nat → List String → Edge → Except String (List (Option Node × Edge))
  | 0, _, _ => .error "out of fuel"
  | fuel + 1, visited, cur =>
    if cur.id ∈ visited then .error "Circular connection detected"
    else
      match F (endp cur) with
      | none => .ok [(nodes.find? fun n => decide (n.id = endp cur), cur)]
      | some nxt =>
        match walkAux F endp nodes fuel (cur.id :: visited) nxt with
        | .error e => .error e
        | .ok rest => .ok ((nodes.find? fun n => decide (n.id = endp cur), cur) :: rest)

/-- `Tree.ancestry`, run eagerly: the lazily consumed generator either
yields its finite list of `(node, edge)` pairs or throws. -/
def Tree.ancestry (t : Tree) (targetHandle : String) :
    Except String (List (Option Node × Edge)) :=
  match t.edges.find? (fun edge => decide (edge.targetHandle = some targetHandle)) with
  | none => .ok []
  | some e0 => walkAux t.ancestorQ Edge.source t.nodes (t.edges.length + 1) [] e0

/-- `Tree.descent`, run eagerly. -/
def Tree.descent (t : Tree) (sourceHandle : String) :
    Except String (List (Option Node × Edge)) :=
  match t.edges.find? (fun edge => decide (edge.sourceHandle = some sourceHandle)) with
  | none => .ok []
  | some e0 => walkAux t.descendantQ Edge.target t.nodes (t.edges.length + 1) [] e0

/-- Modelled from the spec: `METHODS` is imported from `client/collection`,
which is not under `src/`; the spec describes it as "a fixed, externally
supplied enumeration of method names (e.g. the standard HTTP verbs)". -/
def METHODS : List String := ["GET", "POST", "PUT", "PATCH", "DELETE"]

/-- `[node?.data.id]` pushed for one walk step. -/
def hookOf (p : Option Node × Edge) : Hook := p.1.bind Node.dataId

/-- The per-method body of the resolve-hooks effect: before-walk (reversed
on assignment), then after-walk (kept in order); the first thrown error
aborts the whole loop. -/
def resolveEntries (t : Tree) :
    List String → Except String (List (String × List Hook × List Hook))
  | [] => .ok []
  | method :: rest =>
    match t.ancestry ("before-" ++ method) with
    | .error e => .error e
    | .ok beforeWalk =>
      match t.descent ("after-" ++ method) with
      | .error e => .error e
      | .ok afterWalk =>
        match resolveEntries t rest with
        | .error e => .error e
        | .ok tail =>
          .ok ((method, ((beforeWalk.map hookOf).reverse, afterWalk.map hookOf)) :: tail)

/-- The resolve-hooks effect: build `serviceHooks` for every method, or
propagate the thrown error. -/
def resolveHooks (methods : List String) (edges : List Edge) (nodes : List Node) :
    Except String HooksConfig :=
  match resolveEntries ⟨edges, nodes⟩ methods with
  | .error e => .error e
  | .ok entries =>
    .ok { before := entries.map fun p => (p.1, p.2.1)
          after := entries.map fun p => (p.1, p.2.2) }

/-- The effect's update of the `currentHooks` state: `setCurrentHooks` runs
only on success; a thrown error is caught and logged, leaving the previous
configuration in place. -/
def updateCurrentHooks (methods : List String) (edges : List Edge) (nodes : List Node)
    (old : Option HooksConfig) : Option HooksConfig :=
  match resolveHooks methods edges nodes with
  | .ok c => some c
  | .error _ => old

/-- `JSON.stringify` escaping of string content (quote and backslash; the
control-character escapes never arise in the inputs considered here). -/
def jsonEscape (s : String) : String :=
  String.join (s.data.map fun ch =>
    if ch = '"' then "\\\"" else if ch = '\\' then "\\\\" else String.singleton ch)

/-- `JSON.stringify` of one pushed hook entry `[id]` (`[undefined]`
serializes as `[null]`). -/
def jsonOfHook : Hook → String
  | none => "[null]"
  | some s => "[\"" ++ jsonEscape s ++ "\"]"

def jsonOfChain (hooks : List Hook) : String :=
  "[" ++ String.intercalate "," (hooks.map jsonOfHook) ++ "]"

def jsonOfMap (entries : List (String × List Hook)) : String :=
  "\x7b" ++ String.intercalate ","
    (entries.map fun p => "\"" ++ jsonEscape p.1 ++ "\":" ++ jsonOfChain p.2) ++ "\x7d"

/-- `JSON.stringify` of a `HooksConfig`, with the source's literal key
order `{ after, before }` and the methods in insertion order. -/
def jsonOfConfig (c : HooksConfig) : String :=
  "\x7b\"after\":" ++ jsonOfMap c.after ++ ",\"before\":" ++ jsonOfMap c.before ++ "\x7d"

/-- The source's change detector:
`JSON.stringify(currentHooks) !== JSON.stringify(existingHooks)`. -/
def hooksChanged (cur old : Option HooksConfig) : Bool :=
  decide (cur.map jsonOfConfig ≠ old.map jsonOfConfig)

/-! ## Concrete scenario graphs -/

def serviceNode : Node := { id := "service", dataId := none, type := SERVICE_NODE_TYPE }

def unitA : Node := { id := "a", dataId := some "hookA", type := HOOK_NODE_TYPE }

def unitB : Node := { id := "b", dataId := some "hookB", type := HOOK_NODE_TYPE }

def unitC : Node := { id := "c", dataId := some "hookC", type := HOOK_NODE_TYPE }

def unitD : Node := { id := "d", dataId := some "hookD", type := HOOK_NODE_TYPE }

/-- UnitA -> S.before:GET (unit generic output handle modelled from the
spec as "out", its generic input as "in"; the service port handles are the
source's `before-${method}` / `after-${method}`). -/
def c2Conn1 : Connection := ⟨some "a", some "out", some "service", some "before-GET"⟩

/-- UnitB -> UnitA.in. -/
def c2Conn2 : Connection := ⟨some "b", some "out", some "a", some "in"⟩

def c2Edges : List Edge := onConnect c2Conn2 (onConnect c2Conn1 [])

def c2Nodes : List Node := [serviceNode, unitA, unitB]

def c2Config : HooksConfig :=
  { before := [("GET", [some "hookB", some "hookA"]), ("POST", []), ("PUT", []),
      ("PATCH", []), ("DELETE", [])]
    after := [("GET", []), ("POST", []), ("PUT", []), ("PATCH", []), ("DELETE", [])] }

/-- Service.after:POST -> UnitC. -/
def c3Conn1 : Connection := ⟨some "service", some "after-POST", some "c", some "in"⟩

/-- UnitC.out -> UnitD.in. -/
def c3Conn2 : Connection := ⟨some "c", some "out", some "d", some "in"⟩

def c3Edges : List Edge := onConnect c3Conn2 (onConnect c3Conn1 [])

def c3Nodes : List Node := [serviceNode, unitC, unitD]

def c3Config : HooksConfig :=
  { before := [("GET", []), ("POST", []), ("PUT", []), ("PATCH", []), ("DELETE", [])]
    after := [("GET", []), ("POST", [some "hookC", some "hookD"]), ("PUT", []),
      ("PATCH", []), ("DELETE", [])] }

/-- A cyclic graph reachable from `before-GET`: a -> service.before:GET,
b -> a.in, a -> b.in. -/
def cycEdges : List Edge :=
  [⟨"w1", "a", some "out", "service", some "before-GET"⟩,
   ⟨"w2", "b", some "out", "a", some "in"⟩,
   ⟨"w3", "a", some "out", "b", some "in"⟩]

def cycNodes : List Node := [serviceNode, unitA, unitB]

/-- UnitB -> UnitA -> UnitC -> S.before:GET, all unit-to-unit links on
generic ports. -/
def c5Edges : List Edge :=
  [⟨"ec", "c", some "out", "service", some "before-GET"⟩,
   ⟨"ea", "a", some "out", "c", some "in"⟩,
   ⟨"eb", "b", some "out", "a", some "in"⟩]

def c5Nodes : List Node := [serviceNode, unitA, unitB, unitC]

def c5Config : HooksConfig :=
  { before := [("GET", [some "hookB", some "hookA", some "hookC"]), ("POST", []),
      ("PUT", []), ("PATCH", []), ("DELETE", [])]
    after := [("GET", []), ("POST", []), ("PUT", []), ("PATCH", []), ("DELETE", [])] }

def c5ConfigDel : HooksConfig :=
  { before := [("GET", [some "hookB", some "hookC"]), ("POST", []), ("PUT", []),
      ("PATCH", []), ("DELETE", [])]
    after := [("GET", []), ("POST", []), ("PUT", []), ("PATCH", []), ("DELETE", [])] }

/-- UnitB -> UnitA -> S.before:GET: the node to delete (UnitA) sits
directly on a service port. -/
def c5xEdges : List Edge :=
  [⟨"e1", "a", some "out", "service", some "before-GET"⟩,
   ⟨"e2", "b", some "out", "a", some "in"⟩]

def c5xNodes : List Node := [serviceNode, unitA, unitB]

def c5xConfig : HooksConfig :=
  { before := [("GET", [some "hookB", some "hookA"]), ("POST", []), ("PUT", []),
      ("PATCH", []), ("DELETE", [])]
    after := [("GET", []), ("POST", []), ("PUT", []), ("PATCH", []), ("DELETE", [])] }

def emptyConfig : HooksConfig :=
  { before := [("GET", []), ("POST", []), ("PUT", []), ("PATCH", []), ("DELETE", [])]
    after := [("GET", []), ("POST", []), ("PUT", []), ("PATCH", []), ("DELETE", [])] }

def c6Nodes : List Node := [serviceNode, unitA]

def c6Edges : List Edge := [⟨"e1", "a", some "out", "service", some "before-GET"⟩]

/-- Two method maps with the same keys, bound to the same chains, listed in
different key order. -/
def cfgOrdA : HooksConfig := ⟨[("GET", [some "h"]), ("POST", [])], []⟩

def cfgOrdB : HooksConfig := ⟨[("POST", []), ("GET", [some "h"])], []⟩

def fanEdge : Edge := ⟨"u", "b", some "out", "a", some "in"⟩

def fanConn : Connection := ⟨some "b", some "out", some "a2", some "in"⟩

def walkTreeA : Tree :=
  ⟨[⟨"x1", "a", some "out", "service", some "before-GET"⟩], [serviceNode, unitA]⟩

def walkTreeD : Tree :=
  ⟨[⟨"y1", "service", some "after-GET", "a", some "in"⟩], [serviceNode, unitA]⟩

def unitX : Node := ⟨"x", some "hookX", HOOK_NODE_TYPE⟩

def unitO1 : Node := ⟨"o1", some "hook1", HOOK_NODE_TYPE⟩

def unitO2 : Node := ⟨"o2", some "hook2", HOOK_NODE_TYPE⟩

def c9Nodes : List Node := [serviceNode, unitX, unitO1, unitO2]

/-- service.after:GET -> UnitX, UnitX.out -> UnitO1.in, UnitX.out -> UnitO2.in. -/
def c9Edges : List Edge :=
  [⟨"es", "service", some "after-GET", "x", some "in"⟩,
   ⟨"e1", "x", some "out", "o1", some "in"⟩,
   ⟨"e2", "x", some "out", "o2", some "in"⟩]

/-! ## General lemmas about the traversals and the resolver -/

theorem mem_addEdge {e : Edge} {l : List Edge} (c : Connection) (h : e ∈ l) :
    e ∈ addEdge c l := by
  rcases c with ⟨src, sh, tgt, th⟩
  cases src <;> cases tgt <;> simp only [addEdge] <;> try exact h
  split
  · exact h
  · exact List.mem_append_left _ h

theorem addEdge_some {c : Connection} {s t : String} (hs : c.source = some s)
    (ht : c.target = some t) (l : List Edge) :
    addEdge c l =
      if connectionExists (connEdge c s t) l then l else l ++ [connEdge c s t] := by
  unfold addEdge
  rw [hs, ht]

/-- Invariants of a successful generator run: the head is the start edge;
visited edge ids are distinct, fresh with respect to the incoming visited
set, and belong to the edge list; the walked endpoints are pairwise
distinct; and every recorded step's successor query either fails or hits a
later edge of the same run. -/
theorem walk_ok {F : String → Option Edge} {endp : Edge → String} {nodes : List Node}
    (edges : List Edge) (hF : ∀ s e, F s = some e → e ∈ edges) :
    ∀ (fuel : Nat) (visited : List String) (cur : Edge)
      (l : List (Option Node × Edge)),
      cur ∈ edges → walkAux F endp nodes fuel visited cur = .ok l →
      (∃ n rest, l = (n, cur) :: rest) ∧
      (l.map fun p => p.2.id).Nodup ∧
      (∀ i ∈ l.map fun p => p.2.id, i ∉ visited) ∧
      (∀ p ∈ l, p.2 ∈ edges) ∧
      (l.map fun p => endp p.2).Nodup ∧
      (∀ p ∈ l, F (endp p.2) = none ∨
        ∃ e2, F (endp p.2) = some e2 ∧ (e2.id ∈ l.map fun p => p.2.id) ∧
          e2.id ≠ cur.id) := by
  intro fuel
  induction fuel with
  | zero => intro visited cur l _ h; simp [walkAux] at h
  | succ fuel ih =>
    intro visited cur l hcur h
    unfold walkAux at h
    split at h
    · exact absurd h (by simp)
    · rename_i hvis
      split at h
      · rename_i hFeq
        rw [Except.ok.injEq] at h
        subst h
        refine ⟨⟨_, [], rfl⟩, by simp, ?_, ?_, by simp, ?_⟩
        · intro i hi
          simp at hi
          simpa [hi] using hvis
        · intro p hp
          simp at hp
          simpa [hp] using hcur
        · intro p hp
          simp at hp
          left
          simpa [hp] using hFeq
      · rename_i nxt hFeq
        split at h
        · exact absurd h (by simp)
        · rename_i rest hrec
          rw [Except.ok.injEq] at h
          subst h
          obtain ⟨⟨n', rest', hhead⟩, hnodup, hfresh, hmem, hendp, hsucc⟩ :=
            ih (cur.id :: visited) nxt rest (hF _ _ hFeq) hrec
          have hfresh' : ∀ i ∈ rest.map fun p => p.2.id, i ≠ cur.id ∧ i ∉ visited := by
            intro i hi
            have := hfresh i hi
            simp only [List.mem_cons, not_or] at this
            exact this
          refine ⟨⟨_, rest, rfl⟩, ?_, ?_, ?_, ?_, ?_⟩
          · simp only [List.map_cons, List.nodup_cons]
            refine ⟨fun hc => ?_, hnodup⟩
            exact (hfresh' _ hc).1 rfl
          · intro i hi
            simp only [List.map_cons, List.mem_cons] at hi
            rcases hi with hi | hi
            · simpa [hi] using hvis
            · exact (hfresh' i hi).2
          · intro p hp
            rcases List.mem_cons.1 hp with hp | hp
            · simpa [hp] using hcur
            · exact hmem p hp
          · simp only [List.map_cons, List.nodup_cons]
            refine ⟨fun hc => ?_, hendp⟩
            obtain ⟨p, hp, hpe⟩ := List.mem_map.1 hc
            rcases hsucc p hp with hnone | ⟨e2, hFe2, _, hne⟩
            · rw [hpe, hFeq] at hnone
              exact Option.noConfusion hnone
            · rw [hpe, hFeq] at hFe2
              injection hFe2 with h2
              exact hne (congrArg Edge.id h2.symm)
          · have hnxtid : nxt.id ∈ rest.map fun p => p.2.id := by
              rw [hhead]; simp
            intro p hp
            rcases List.mem_cons.1 hp with hp | hp
            · right
              refine ⟨nxt, by simpa [hp] using hFeq, ?_, (hfresh' _ hnxtid).1⟩
              simp only [hp, List.map_cons, List.mem_cons]
              exact Or.inr hnxtid
            · rcases hsucc p hp with hnone | ⟨e2, hFe2, hmem2, _⟩
              · exact Or.inl hnone
              · exact Or.inr ⟨e2, hFe2, List.mem_cons_of_mem _ hmem2,
                  (hfresh' _ hmem2).1⟩

/-- Fuel sufficiency: with more fuel than there are unvisited edge ids, the
generator loop never runs out of fuel — every iteration either consumes a
fresh edge id or throws the circular-connection error. -/
theorem walk_no_fuel {F : String → Option Edge} {endp : Edge → String} {nodes : List Node}
    (edges : List Edge) (hF : ∀ s e, F s = some e → e ∈ edges) :
    ∀ (fuel : Nat) (visited : List String) (cur : Edge),
      cur ∈ edges →
      ((edges.map Edge.id).toFinset.filter fun i => i ∉ visited).card < fuel →
      walkAux F endp nodes fuel visited cur ≠ .error "out of fuel" := by
  intro fuel
  induction fuel with
  | zero => intro visited cur _ hcard; exact absurd hcard (Nat.not_lt_zero _)
  | succ fuel ih =>
    intro visited cur hcur hcard
    unfold walkAux
    split
    · simp
    · rename_i hvis
      split
      · simp
      · rename_i nxt hFeq
        have hmemf : cur.id ∈ (edges.map Edge.id).toFinset.filter fun i => i ∉ visited :=
          Finset.mem_filter.2 ⟨List.mem_toFinset.2 (List.mem_map_of_mem _ hcur), hvis⟩
        have hsub : ((edges.map Edge.id).toFinset.filter fun i => i ∉ cur.id :: visited)
            = ((edges.map Edge.id).toFinset.filter fun i => i ∉ visited).erase cur.id := by
          ext x
          simp only [Finset.mem_filter, Finset.mem_erase, List.mem_cons, not_or]
          tauto
        have hcard' :
            ((edges.map Edge.id).toFinset.filter fun i => i ∉ cur.id :: visited).card
              < fuel := by
          have hlt : ((edges.map Edge.id).toFinset.filter fun i => i ∉ cur.id :: visited).card
              < ((edges.map Edge.id).toFinset.filter fun i => i ∉ visited).card := by
            rw [hsub]
            exact Finset.card_erase_lt_of_mem hmemf
          exact lt_of_lt_of_le hlt (Nat.lt_succ_iff.mp hcard)
        have hrec := ih (cur.id :: visited) nxt (hF _ _ hFeq) hcard'
        split
        · rename_i e herr
          rw [herr] at hrec
          exact hrec
        · simp

/-- A successful generator run records at most as many pairs as there are
edges (distinct edge ids drawn from the edge list). -/
theorem walk_ok_length {F : String → Option Edge} {endp : Edge → String}
    {nodes : List Node} (edges : List Edge) (hF : ∀ s e, F s = some e → e ∈ edges)
    (fuel : Nat) (visited : List String) (cur : Edge)
    (l : List (Option Node × Edge)) (hcur : cur ∈ edges)
    (h : walkAux F endp nodes fuel visited cur = .ok l) :
    l.length ≤ edges.length := by
  obtain ⟨-, hnodup, -, hmem, -, -⟩ := walk_ok edges hF fuel visited cur l hcur h
  have hsubset : (l.map fun p => p.2.id).toFinset ⊆ (edges.map Edge.id).toFinset := by
    intro i hi
    rw [List.mem_toFinset] at hi ⊢
    obtain ⟨p, hp, rfl⟩ := List.mem_map.1 hi
    exact List.mem_map_of_mem _ (hmem p hp)
  calc l.length = (l.map fun p => p.2.id).length := (List.length_map _ _).symm
    _ = (l.map fun p => p.2.id).toFinset.card := (List.toFinset_card_of_nodup hnodup).symm
    _ ≤ (edges.map Edge.id).toFinset.card := Finset.card_le_card hsubset
    _ ≤ (edges.map Edge.id).length := List.toFinset_card_le _
    _ = edges.length := List.length_map _ _

theorem card_unvisited_lt (edges : List Edge) :
    ((edges.map Edge.id).toFinset.filter fun i => i ∉ ([] : List String)).card
      < edges.length + 1 := by
  have h1 : ((edges.map Edge.id).toFinset.filter fun i => i ∉ ([] : List String))
      = (edges.map Edge.id).toFinset := by
    apply Finset.filter_true_of_mem
    intro x _
    simp
  have h2 := List.toFinset_card_le (edges.map Edge.id)
  rw [h1]
  rw [List.length_map] at h2
  omega

theorem ancestorQ_mem (t : Tree) : ∀ s e, t.ancestorQ s = some e → e ∈ t.edges :=
  fun _ _ hf => List.mem_of_find?_eq_some hf

theorem descendantQ_mem (t : Tree) : ∀ s e, t.descendantQ s = some e → e ∈ t.edges :=
  fun _ _ hf => List.mem_of_find?_eq_some hf

theorem ancestry_ok_sources_nodup (t : Tree) (h : String)
    (l : List (Option Node × Edge)) (hok : t.ancestry h = .ok l) :
    (l.map fun p => p.2.source).Nodup := by
  unfold Tree.ancestry at hok
  split at hok
  · rw [Except.ok.injEq] at hok; subst hok; simp
  · rename_i e0 hfind
    exact (walk_ok t.edges (ancestorQ_mem t) _ [] e0 l
      (List.mem_of_find?_eq_some hfind) hok).2.2.2.2.1

theorem descent_ok_targets_nodup (t : Tree) (h : String)
    (l : List (Option Node × Edge)) (hok : t.descent h = .ok l) :
    (l.map fun p => p.2.target).Nodup := by
  unfold Tree.descent at hok
  split at hok
  · rw [Except.ok.injEq] at hok; subst hok; simp
  · rename_i e0 hfind
    exact (walk_ok t.edges (descendantQ_mem t) _ [] e0 l
      (List.mem_of_find?_eq_some hfind) hok).2.2.2.2.1

theorem ancestry_no_fuel (t : Tree) (h : String) :
    t.ancestry h ≠ .error "out of fuel" := by
  unfold Tree.ancestry
  split
  · simp
  · rename_i e0 hfind
    exact walk_no_fuel t.edges (ancestorQ_mem t) _ [] e0
      (List.mem_of_find?_eq_some hfind) (card_unvisited_lt t.edges)

theorem descent_no_fuel (t : Tree) (h : String) :
    t.descent h ≠ .error "out of fuel" := by
  unfold Tree.descent
  split
  · simp
  · rename_i e0 hfind
    exact walk_no_fuel t.edges (descendantQ_mem t) _ [] e0
      (List.mem_of_find?_eq_some hfind) (card_unvisited_lt t.edges)

theorem ancestry_ok_length (t : Tree) (h : String)
    (l : List (Option Node × Edge)) (hok : t.ancestry h = .ok l) :
    l.length ≤ t.edges.length := by
  unfold Tree.ancestry at hok
  split at hok
  · rw [Except.ok.injEq] at hok; subst hok; simp
  · rename_i e0 hfind
    exact walk_ok_length t.edges (ancestorQ_mem t) _ [] e0 l
      (List.mem_of_find?_eq_some hfind) hok

theorem descent_ok_length (t : Tree) (h : String)
    (l : List (Option Node × Edge)) (hok : t.descent h = .ok l) :
    l.length ≤ t.edges.length := by
  unfold Tree.descent at hok
  split at hok
  · rw [Except.ok.injEq] at hok; subst hok; simp
  · rename_i e0 hfind
    exact walk_ok_length t.edges (descendantQ_mem t) _ [] e0 l
      (List.mem_of_find?_eq_some hfind) hok

/-- Successful resolution records, under each listed method key, the
reversed before-walk and the unreversed after-walk of that method. -/
theorem resolveEntries_ok_lookup (t : Tree) :
    ∀ (methods : List String) (entries : List (String × List Hook × List Hook)),
      resolveEntries t methods = .ok entries →
      ∀ m ∈ methods,
        ∃ bw aw, t.ancestry ("before-" ++ m) = .ok bw ∧
          t.descent ("after-" ++ m) = .ok aw ∧
          (entries.map fun p => (p.1, p.2.1)).lookup m = some ((bw.map hookOf).reverse) ∧
          (entries.map fun p => (p.1, p.2.2)).lookup m = some (aw.map hookOf) := by
  intro methods
  induction methods with
  | nil => intro entries _ m hm; exact absurd hm (List.not_mem_nil m)
  | cons m0 rest ih =>
    intro entries h m hm
    unfold resolveEntries at h
    split at h
    · exact absurd h (by simp)
    · rename_i bw0 hbw0
      split at h
      · exact absurd h (by simp)
      · rename_i aw0 haw0
        split at h
        · exact absurd h (by simp)
        · rename_i tail htail
          rw [Except.ok.injEq] at h
          subst h
          by_cases hm0 : m = m0
          · subst hm0
            exact ⟨bw0, aw0, hbw0, haw0, by simp [List.lookup], by simp [List.lookup]⟩
          · have hmr : m ∈ rest := by
              rcases List.mem_cons.1 hm with h | h
              · exact absurd h hm0
              · exact h
            obtain ⟨bw, aw, h1, h2, h3, h4⟩ := ih tail htail m hmr
            have hbeq : (m == m0) = false := beq_eq_false_iff_ne.mpr hm0
            refine ⟨bw, aw, h1, h2, ?_, ?_⟩
            · simpa [List.lookup, hbeq] using h3
            · simpa [List.lookup, hbeq] using h4

/-- The same statement at the level of `resolveHooks` and `HooksConfig`. -/
theorem resolveHooks_ok_lookup {methods : List String} {edges : List Edge}
    {nodes : List Node} {cfg : HooksConfig}
    (h : resolveHooks methods edges nodes = .ok cfg) {m : String} (hm : m ∈ methods) :
    ∃ bw aw, Tree.ancestry ⟨edges, nodes⟩ ("before-" ++ m) = .ok bw ∧
      Tree.descent ⟨edges, nodes⟩ ("after-" ++ m) = .ok aw ∧
      cfg.before.lookup m = some ((bw.map hookOf).reverse) ∧
      cfg.after.lookup m = some (aw.map hookOf) := by
  unfold resolveHooks at h
  split at h
  · exact absurd h (by simp)
  · rename_i entries hentries
    rw [Except.ok.injEq] at h
    subst h
    exact resolveEntries_ok_lookup _ methods entries hentries m hm

/-! ## Claim C1 -/

/-- Claim C1, counterexample: connecting from a `Service` output port into
an already-occupied input port does not evict the prior edge — afterwards
two edges occupy the single-edge input port `(c, in)`, not exactly one. -/
theorem c1_counterexample :
    ((onConnect ⟨some "service", some "after-GET", some "c", some "in"⟩
        [⟨"e1", "b", some "out", "c", some "in"⟩]).filter
      (fun e => decide (e.target = "c" ∧ e.targetHandle = some "in"))).length = 2 ∧
    ¬ ((onConnect ⟨some "service", some "after-GET", some "c", some "in"⟩
        [⟨"e1", "b", some "out", "c", some "in"⟩]).filter
      (fun e => decide (e.target = "c" ∧ e.targetHandle = some "in"))).length = 1 := by
  constructor
  · rfl
  · decide

/-- Claim C1 (amended): eviction in `onConnect` is one-sided.  When the
connection's source is not the service node, exactly the edges sharing the
connection's target/target-handle pair are removed and the new edge is the
unique edge on that input port afterwards.  When the connection's source is
the service node, exactly the edges sharing the connection's source handle
are removed and the new edge is the unique edge carrying that source
handle afterwards — the target input port is not cleared in that case. -/
theorem c1_amended :
    (∀ (edges : List Edge) (c : Connection) (s t th : String),
        c.source = some s → s ≠ "service" → c.target = some t →
        c.targetHandle = some th →
        (onConnect c edges).filter
            (fun e => decide (e.target = t ∧ e.targetHandle = some th))
          = [connEdge c s t]) ∧
    (∀ (edges : List Edge) (c : Connection) (t : String),
        c.source = some "service" → c.target = some t →
        (onConnect c edges).filter (fun e => decide (e.sourceHandle = c.sourceHandle))
          = [connEdge c "service" t]) := by
  constructor
  · intro edges c s t th hs hsne ht hth
    have hcs : ¬ c.source = some "service" := by
      rw [hs]
      simp [hsne]
    show (addEdge c (edges.filter fun edge =>
        if c.source = some "service" then decide (edge.sourceHandle ≠ c.sourceHandle)
        else decide (edgeTargetTag edge ≠ connTargetTag c))).filter
        (fun e => decide (e.target = t ∧ e.targetHandle = some th)) = [connEdge c s t]
    have hfil : (fun (edge : Edge) =>
        if c.source = some "service" then decide (edge.sourceHandle ≠ c.sourceHandle)
        else decide (edgeTargetTag edge ≠ connTargetTag c))
        = fun edge => decide (edgeTargetTag edge ≠ connTargetTag c) := by
      funext edge
      rw [if_neg hcs]
    rw [hfil]
    have hkeep : ∀ el ∈ edges.filter fun edge =>
        decide (edgeTargetTag edge ≠ connTargetTag c),
        edgeTargetTag el ≠ connTargetTag c := by
      intro el hel
      exact of_decide_eq_true (List.mem_filter.1 hel).2
    have htag : ∀ el : Edge, el.target = t → el.targetHandle = some th →
        edgeTargetTag el = connTargetTag c := by
      intro el h1 h2
      simp [edgeTargetTag, connTargetTag, h1, h2, ht, hth, templateStr, templateStrN]
    have hnotex : connectionExists (connEdge c s t)
        (edges.filter fun edge => decide (edgeTargetTag edge ≠ connTargetTag c))
        = false := by
      rw [connectionExists, List.any_eq_false]
      intro el hel
      simp only [connEdge, Bool.and_eq_true, decide_eq_true_eq, not_and]
      intro h1 h4
      exact hkeep el hel (htag el h1.1.2 (by rw [h4, hth]))
    rw [addEdge_some hs ht, if_neg (by rw [hnotex]; exact Bool.false_ne_true),
      List.filter_append]
    have h1 : (edges.filter fun edge =>
        decide (edgeTargetTag edge ≠ connTargetTag c)).filter
        (fun e => decide (e.target = t ∧ e.targetHandle = some th)) = [] := by
      rw [List.filter_eq_nil_iff]
      intro el hel
      simp only [decide_eq_true_eq, not_and]
      intro h2 h3
      exact hkeep el hel (htag el h2 h3)
    have h2 : ([connEdge c s t] : List Edge).filter
        (fun e => decide (e.target = t ∧ e.targetHandle = some th))
        = [connEdge c s t] := by
      simp [connEdge, hth]
    rw [h1, h2, List.nil_append]
  · intro edges c t hs ht
    show (addEdge c (edges.filter fun edge =>
        if c.source = some "service" then decide (edge.sourceHandle ≠ c.sourceHandle)
        else decide (edgeTargetTag edge ≠ connTargetTag c))).filter
        (fun e => decide (e.sourceHandle = c.sourceHandle)) = [connEdge c "service" t]
    have hfil : (fun (edge : Edge) =>
        if c.source = some "service" then decide (edge.sourceHandle ≠ c.sourceHandle)
        else decide (edgeTargetTag edge ≠ connTargetTag c))
        = fun edge => decide (edge.sourceHandle ≠ c.sourceHandle) := by
      funext edge
      rw [if_pos hs]
    rw [hfil]
    have hkeep : ∀ el ∈ edges.filter fun edge =>
        decide (edge.sourceHandle ≠ c.sourceHandle),
        el.sourceHandle ≠ c.sourceHandle := by
      intro el hel
      exact of_decide_eq_true (List.mem_filter.1 hel).2
    have hnotex : connectionExists (connEdge c "service" t)
        (edges.filter fun edge => decide (edge.sourceHandle ≠ c.sourceHandle))
        = false := by
      rw [connectionExists, List.any_eq_false]
      intro el hel
      simp only [connEdge, Bool.and_eq_true, decide_eq_true_eq, not_and]
      intro h1
      exact (hkeep el hel h1.2).elim
    rw [addEdge_some hs ht, if_neg (by rw [hnotex]; exact Bool.false_ne_true),
      List.filter_append]
    have h1 : (edges.filter fun edge =>
        decide (edge.sourceHandle ≠ c.sourceHandle)).filter
        (fun e => decide (e.sourceHandle = c.sourceHandle)) = [] := by
      rw [List.filter_eq_nil_iff]
      intro el hel
      simp only [decide_eq_true_eq]
      exact hkeep el hel
    have h2 : ([connEdge c "service" t] : List Edge).filter
        (fun e => decide (e.sourceHandle = c.sourceHandle))
        = [connEdge c "service" t] := by
      simp [connEdge]
    rw [h1, h2, List.nil_append]

/-- Witness for `c1_amended` at concrete inputs: a fresh unit-to-unit
connection occupies its input port alone, and a fresh service-output
connection occupies its source handle alone. -/
theorem c1_amended_witness :
    ((onConnect ⟨some "b", some "out", some "a", some "in"⟩ []).filter
        (fun e => decide (e.target = "a" ∧ e.targetHandle = some "in"))
      = [connEdge ⟨some "b", some "out", some "a", some "in"⟩ "b" "a"]) ∧
    ((onConnect ⟨some "service", some "after-GET", some "c", some "in"⟩
        [⟨"e1", "b", some "out", "c", some "in"⟩]).filter
        (fun e => decide (e.sourceHandle
          = (⟨some "service", some "after-GET", some "c", some "in"⟩ : Connection).sourceHandle))
      = [connEdge ⟨some "service", some "after-GET", some "c", some "in"⟩ "service" "c"]) :=
  ⟨c1_amended.1 [] _ "b" "a" "in" rfl (by decide) rfl rfl,
   c1_amended.2 [⟨"e1", "b", some "out", "c", some "in"⟩] _ "c" rfl rfl⟩

/-! ## Claims C2, C3, C4 -/

/-- Claim C2 (confirmed): for any graph whose resolution succeeds, the
before chain recorded for a method is the backwards walk from the service
input port `before-M`, reversed (farthest-from-service first); in the
scenario UnitA -> S.before:GET, UnitB -> UnitA.in, method GET's before
chain is [UnitB.hookType, UnitA.hookType]. -/
theorem c2_before_chain :
    (∀ (edges : List Edge) (nodes : List Node) (methods : List String) (m : String)
        (cfg : HooksConfig) (bw : List (Option Node × Edge)),
        resolveHooks methods edges nodes = .ok cfg → m ∈ methods →
        Tree.ancestry ⟨edges, nodes⟩ ("before-" ++ m) = .ok bw →
        cfg.before.lookup m = some ((bw.map hookOf).reverse)) ∧
    (resolveHooks METHODS c2Edges c2Nodes = .ok c2Config ∧
      c2Config.before.lookup "GET" = some [some "hookB", some "hookA"]) := by
  constructor
  · intro edges nodes methods m cfg bw hok hm hbw
    obtain ⟨bw', aw, h1, -, h3, -⟩ := resolveHooks_ok_lookup hok hm
    rw [hbw] at h1
    rw [Except.ok.injEq] at h1
    rw [h1]
    exact h3
  · exact ⟨rfl, rfl⟩

/-- Witness for `c2_before_chain` at the scenario graph. -/
theorem c2_before_chain_witness :
    c2Config.before.lookup "GET"
      = some ((([(some unitA, connEdge c2Conn1 "a" "service"),
          (some unitB, connEdge c2Conn2 "b" "a")] :
            List (Option Node × Edge)).map hookOf).reverse) :=
  c2_before_chain.1 c2Edges c2Nodes METHODS "GET" c2Config
    [(some unitA, connEdge c2Conn1 "a" "service"),
     (some unitB, connEdge c2Conn2 "b" "a")] rfl (by decide) rfl

/-- Claim C3 (confirmed): for any graph whose resolution succeeds, the
after chain recorded for a method is the forward walk from the service
output port `after-M`, without reversal (closest-to-service first); in the
scenario Service.after:POST -> UnitC, UnitC.out -> UnitD.in, method POST's
after chain is [UnitC.hookType, UnitD.hookType]. -/
theorem c3_after_chain :
    (∀ (edges : List Edge) (nodes : List Node) (methods : List String) (m : String)
        (cfg : HooksConfig) (aw : List (Option Node × Edge)),
        resolveHooks methods edges nodes = .ok cfg → m ∈ methods →
        Tree.descent ⟨edges, nodes⟩ ("after-" ++ m) = .ok aw →
        cfg.after.lookup m = some (aw.map hookOf)) ∧
    (resolveHooks METHODS c3Edges c3Nodes = .ok c3Config ∧
      c3Config.after.lookup "POST" = some [some "hookC", some "hookD"]) := by
  constructor
  · intro edges nodes methods m cfg aw hok hm haw
    obtain ⟨bw, aw', -, h2, -, h4⟩ := resolveHooks_ok_lookup hok hm
    rw [haw] at h2
    rw [Except.ok.injEq] at h2
    rw [h2]
    exact h4
  · exact ⟨rfl, rfl⟩

/-- Witness for `c3_after_chain` at the scenario graph. -/
theorem c3_after_chain_witness :
    c3Config.after.lookup "POST"
      = some (([(some unitC, connEdge c3Conn1 "service" "c"),
          (some unitD, connEdge c3Conn2 "c" "d")] :
            List (Option Node × Edge)).map hookOf) :=
  c3_after_chain.1 c3Edges c3Nodes METHODS "POST" c3Config
    [(some unitC, connEdge c3Conn1 "service" "c"),
     (some unitD, connEdge c3Conn2 "c" "d")] rfl (by decide) rfl

/-- Claim C4 (confirmed): when the backwards traversal of some listed
method's before-port throws (the circular-connection error raised on
revisiting an edge id), the resolution of the whole configuration fails,
and the caught failure leaves the previously resolved configuration
untouched. -/
theorem c4_cycle_preserves_config :
    ∀ (methods : List String) (edges : List Edge) (nodes : List Node) (m : String),
      m ∈ methods →
      (∃ msg, Tree.ancestry ⟨edges, nodes⟩ ("before-" ++ m) = .error msg) →
      (∃ msg, resolveHooks methods edges nodes = .error msg) ∧
      ∀ old, updateCurrentHooks methods edges nodes old = old := by
  intro methods edges nodes m hm herr0
  obtain ⟨msg, herr⟩ := herr0
  have hres : ∃ msg2, resolveHooks methods edges nodes = .error msg2 := by
    cases hr : resolveHooks methods edges nodes with
    | error e => exact ⟨e, rfl⟩
    | ok cfg =>
      obtain ⟨bw, aw, h1, -, -, -⟩ := resolveHooks_ok_lookup hr hm
      rw [herr] at h1
      exact absurd h1 (by simp)
  refine ⟨hres, ?_⟩
  intro old
  obtain ⟨msg2, h2⟩ := hres
  unfold updateCurrentHooks
  rw [h2]

/-- Witness for `c4_cycle_preserves_config`: the concrete cyclic graph
`cycEdges` makes the whole resolution fail and keeps the previous
configuration. -/
theorem c4_cycle_preserves_config_witness :
    (∃ msg, resolveHooks METHODS cycEdges cycNodes = .error msg) ∧
    updateCurrentHooks METHODS cycEdges cycNodes (some cfgOrdA) = some cfgOrdA :=
  ⟨(c4_cycle_preserves_config METHODS cycEdges cycNodes "GET" (by decide)
      ⟨"Circular connection detected", rfl⟩).1,
   (c4_cycle_preserves_config METHODS cycEdges cycNodes "GET" (by decide)
      ⟨"Circular connection detected", rfl⟩).2 (some cfgOrdA)⟩

/-! ## Claims C5, C6, C7 -/

/-- Claim C5, counterexample: UnitA in UnitB -> UnitA -> S.before:GET has
exactly one incomer and one outgoer, yet deleting it empties method GET's
chain entirely (the synthesized edge carries no target handle, so the
traversal start `targetHandle === 'before-GET'` finds nothing) instead of
merely dropping UnitA's hook id. -/
theorem c5_counterexample :
    (getIncomers unitA c5xNodes c5xEdges).length = 1 ∧
    (getOutgoers unitA c5xNodes c5xEdges).length = 1 ∧
    resolveHooks METHODS c5xEdges c5xNodes = .ok c5xConfig ∧
    c5xConfig.before.lookup "GET" = some [some "hookB", some "hookA"] ∧
    resolveHooks METHODS (deleteNodes [unitA] c5xNodes c5xEdges).2
        (deleteNodes [unitA] c5xNodes c5xEdges).1 = .ok emptyConfig ∧
    emptyConfig.before.lookup "GET" = some [] ∧
    ¬ (emptyConfig.before.lookup "GET"
        = some ((c5xConfig.before.lookup "GET").getD [] |>.filter
            fun h => decide (h ≠ some "hookA"))) := by
  refine ⟨rfl, rfl, rfl, rfl, rfl, rfl, ?_⟩
  decide

/-- Claim C5 (amended): deleting a node with exactly one incomer and one
outgoer both linked over generic `Unit` ports (the deleted node not
adjacent to the service) synthesizes the single edge incomer -> outgoer,
and every resolved chain equals the previous one with exactly the deleted
node's hook id removed; shown on UnitB -> UnitA -> UnitC -> S.before:GET
with UnitA deleted. -/
theorem c5_amended :
    deleteNodes [unitA] c5Nodes c5Edges
      = ([serviceNode, unitB, unitC],
         [⟨"ec", "c", some "out", "service", some "before-GET"⟩,
          ⟨"b->c", "b", none, "c", none⟩]) ∧
    (getIncomers unitA c5Nodes c5Edges).length = 1 ∧
    (getOutgoers unitA c5Nodes c5Edges).length = 1 ∧
    resolveHooks METHODS c5Edges c5Nodes = .ok c5Config ∧
    resolveHooks METHODS (deleteNodes [unitA] c5Nodes c5Edges).2
        (deleteNodes [unitA] c5Nodes c5Edges).1 = .ok c5ConfigDel ∧
    c5ConfigDel.before
      = c5Config.before.map
          (fun p => (p.1, p.2.filter fun h => decide (h ≠ some "hookA"))) ∧
    c5ConfigDel.after = c5Config.after := by
  refine ⟨rfl, rfl, rfl, rfl, rfl, ?_, rfl⟩
  decide

/-- Claim C6 (code bug): deleting the `Service` node is not prevented by
anything in the source — `initialNodes` does not mark it non-deletable and
`onNodesDelete` has no guard, so the deletion succeeds, removes the
service node and its incident edges, and leaves zero `Service` nodes,
violating the singleton invariant the spec states. -/
theorem c6_service_delete_succeeds :
    deleteNodes [serviceNode] c6Nodes c6Edges = ([unitA], []) ∧
    ((deleteNodes [serviceNode] c6Nodes c6Edges).1.filter
        fun n => decide (n.type = SERVICE_NODE_TYPE)).length = 0 ∧
    (c6Nodes.filter fun n => decide (n.type = SERVICE_NODE_TYPE)).length = 1 :=
  ⟨rfl, rfl, rfl⟩

/-- Claim C7, counterexample: two configurations with identical method-key
sets, identical chains per key, but different key order — the
`JSON.stringify` comparison reports a difference. -/
theorem c7_counterexample :
    cfgOrdA.before.lookup "GET" = cfgOrdB.before.lookup "GET" ∧
    cfgOrdA.before.lookup "POST" = cfgOrdB.before.lookup "POST" ∧
    List.Perm (cfgOrdA.before.map Prod.fst) (cfgOrdB.before.map Prod.fst) ∧
    cfgOrdA.after = cfgOrdB.after ∧
    hooksChanged (some cfgOrdA) (some cfgOrdB) = true := by
  refine ⟨rfl, rfl, ?_, rfl, rfl⟩
  exact List.Perm.swap _ _ _

/-- Claim C7 (amended): the change detector compares serialized forms and
is therefore key-order-sensitive; two configurations with the same method
keys in the same order and the same chains report no difference. -/
theorem c7_amended :
    ∀ c1 c2 : HooksConfig, c1.before = c2.before → c1.after = c2.after →
      hooksChanged (some c1) (some c2) = false := by
  intro c1 c2 hb ha
  have heq : c1 = c2 := by
    cases c1
    cases c2
    cases hb
    cases ha
    rfl
  subst heq
  simp [hooksChanged]

/-- Witness for `c7_amended`. -/
theorem c7_amended_witness : hooksChanged (some cfgOrdA) (some cfgOrdA) = false :=
  c7_amended cfgOrdA cfgOrdA rfl rfl

/-! ## Claims C8, C9, C10 -/

/-- Claim C8 (confirmed): `onConnect` never evicts an edge for sharing a
`Unit` output port — an edge with the generic unit output handle survives
any connect whose target tag differs from its own (service connections
carry `after-`-prefixed source handles, which can never equal the generic
handle), so arbitrary fan-out coexists; and a successful traversal never
records the same node twice: the walked sources (backwards) and targets
(forwards) are pairwise distinct. -/
theorem c8_fanout_and_no_duplicates :
    (∀ (edges : List Edge) (c : Connection) (e : Edge),
        e ∈ edges → e.sourceHandle = some "out" →
        (c.source = some "service" → ∃ m, c.sourceHandle = some ("after-" ++ m)) →
        edgeTargetTag e ≠ connTargetTag c →
        e ∈ onConnect c edges) ∧
    (∀ (t : Tree) (h : String) (l : List (Option Node × Edge)),
        t.ancestry h = .ok l → (l.map fun p => p.2.source).Nodup) ∧
    (∀ (t : Tree) (h : String) (l : List (Option Node × Edge)),
        t.descent h = .ok l → (l.map fun p => p.2.target).Nodup) := by
  refine ⟨?_, ancestry_ok_sources_nodup, descent_ok_targets_nodup⟩
  intro edges c e hmem hout hserv htag
  have hfil : e ∈ edges.filter fun edge =>
      if c.source = some "service" then decide (edge.sourceHandle ≠ c.sourceHandle)
      else decide (edgeTargetTag edge ≠ connTargetTag c) := by
    rw [List.mem_filter]
    refine ⟨hmem, ?_⟩
    by_cases hc : c.source = some "service"
    · rw [if_pos hc]
      obtain ⟨m, hm⟩ := hserv hc
      rw [hout, hm]
      apply decide_eq_true
      intro hcontra
      have hlen := congrArg String.length (Option.some.inj hcontra)
      rw [String.length_append] at hlen
      have h3 : ("out" : String).length = 3 := by decide
      have h6 : ("after-" : String).length = 6 := by decide
      rw [h3, h6] at hlen
      omega
    · rw [if_neg hc]
      exact decide_eq_true htag
  exact mem_addEdge c hfil

/-- Witness for `c8_fanout_and_no_duplicates` at concrete inputs. -/
theorem c8_fanout_and_no_duplicates_witness :
    fanEdge ∈ onConnect fanConn [fanEdge] ∧
    (([(some unitA, (⟨"x1", "a", some "out", "service", some "before-GET"⟩ : Edge))] :
        List (Option Node × Edge)).map fun p => p.2.source).Nodup ∧
    (([(some unitA, (⟨"y1", "service", some "after-GET", "a", some "in"⟩ : Edge))] :
        List (Option Node × Edge)).map fun p => p.2.target).Nodup :=
  ⟨c8_fanout_and_no_duplicates.1 [fanEdge] fanConn fanEdge (by decide) rfl
      (fun h => absurd h (by decide)) (by decide),
   c8_fanout_and_no_duplicates.2.1 walkTreeA "before-GET" _ rfl,
   c8_fanout_and_no_duplicates.2.2 walkTreeD "after-GET" _ rfl⟩

/-- Claim C9, counterexample: deleting UnitX, which sits on the service
output port `after-GET` and fans out to UnitO1 and UnitO2, synthesizes two
edges out of the service node and keeps both — no single-edge eviction is
applied to the synthesized edges. -/
theorem c9_counterexample :
    ((onNodesDelete [unitX] c9Nodes c9Edges).filter
        fun e => decide (e.source = "service")).length = 2 ∧
    ¬ ((onNodesDelete [unitX] c9Nodes c9Edges).filter
        fun e => decide (e.source = "service")).length ≤ 1 :=
  ⟨rfl, by decide⟩

/-- Claim C9 (amended): the rewiring applies no eviction at all — it keeps
one handle-less synthesized edge per (incomer, outgoer) pair, so a service
node that fed the deleted node ends up with one synthesized outgoing edge
per outgoer. -/
theorem c9_amended :
    onNodesDelete [unitX] c9Nodes c9Edges
      = [⟨"service->o1", "service", none, "o1", none⟩,
         ⟨"service->o2", "service", none, "o2", none⟩] ∧
    getIncomers unitX c9Nodes c9Edges = [serviceNode] ∧
    getOutgoers unitX c9Nodes c9Edges = [unitO1, unitO2] :=
  ⟨rfl, rfl, rfl⟩

/-- Claim C10 (confirmed): both traversals terminate on every finite
graph — the fuel `edges.length + 1` is never exhausted (each iteration
consumes a fresh edge id or throws the circular-connection error), and a
successful run yields at most as many pairs as there are edges. -/
theorem c10_traversal_terminates :
    ∀ (t : Tree) (h : String),
      t.ancestry h ≠ .error "out of fuel" ∧
      t.descent h ≠ .error "out of fuel" ∧
      (∀ l, t.ancestry h = .ok l → l.length ≤ t.edges.length) ∧
      (∀ l, t.descent h = .ok l → l.length ≤ t.edges.length) :=
  fun t h =>
    ⟨ancestry_no_fuel t h, descent_no_fuel t h,
     fun l hl => ancestry_ok_length t h l hl,
     fun l hl => descent_ok_length t h l hl⟩

/-- Witness for `c10_traversal_terminates` at a concrete graph. -/
theorem c10_traversal_terminates_witness :
    walkTreeA.ancestry "before-GET" ≠ .error "out of fuel" ∧
    walkTreeA.descent "before-GET" ≠ .error "out of fuel" ∧
    ([(some unitA, (⟨"x1", "a", some "out", "service", some "before-GET"⟩ : Edge))] :
        List (Option Node × Edge)).length ≤ walkTreeA.edges.length ∧
    ([] : List (Option Node × Edge)).length ≤ walkTreeA.edges.length :=
  ⟨(c10_traversal_terminates walkTreeA "before-GET").1,
   (c10_traversal_terminates walkTreeA "before-GET").2.1,
   (c10_traversal_terminates walkTreeA "before-GET").2.2.1 _ rfl,
   (c10_traversal_terminates walkTreeA "before-GET").2.2.2 _ rfl⟩

end HookGraph
